import Mathlib

/-!
Verification of the posixmq crate (src/posixmq.rs) against its natural-language
specification.  The relevant Rust functions are shallowly embedded as Lean
functions: byte strings become `List Nat` (NUL = 0, the slash character = 47),
machine integers become `Int`/`Nat` with explicit wrapping where the source
uses wrapping arithmetic or `as` casts, fallible operations return
`Option`/`Except`, and the kernel is represented by explicit oracle arguments
(attempt-indexed system-call outcomes, attribute-query results).
-/

namespace Posixmq

/-- Linux x86_64 `time_t` is `i64`: its largest value. -/
def timeTMax : Int := 2 ^ 63 - 1

/-- Linux x86_64 `time_t` is `i64`: its smallest value. -/
def timeTMin : Int := -(2 ^ 63)

/-- One second in nanoseconds, the `NANO` constant of `timeout_to_realtime`. -/
def NANO : Int := 1000000000

/-- `CSTR_BUF_SIZE` from src/posixmq.rs line 307. -/
def CSTR_BUF_SIZE : Nat := 32

/-- Interpretation of a 64-bit two's-complement value: reduce an integer into
`[-2^63, 2^63)`.  Models Rust release-mode wrapping arithmetic on `i64`. -/
def wrapI64 (x : Int) : Int := (x + 2 ^ 63) % 2 ^ 64 - 2 ^ 63

/-- The Rust cast `u64 as i64` (`expires.as_secs() as time_t`). -/
def castU64ToI64 (n : Nat) : Int := wrapI64 (n : Int)

/-- The Rust cast `i64 as usize` on a 64-bit target
(`attrs.mq_msgsize as usize`). -/
def castToUsize (x : Int) : Nat := (x % 2 ^ 64).toNat

/-- The `std::io::ErrorKind` values this library distinguishes. -/
inductive ErrKind where
  | notFound
  | alreadyExists
  | permissionDenied
  | invalidInput
  | wouldBlock
  | timedOut
  | interrupted
  | other
deriving DecidableEq, Repr

/-- Equality of embedded fallible results is decidable, so that concrete
runs of the embedded functions can be checked by evaluation. -/
instance exceptDecEq {ε α : Type} [DecidableEq ε] [DecidableEq α] :
    DecidableEq (Except ε α) := fun x y =>
  match x, y with
  | .ok a, .ok b =>
    if h : a = b then isTrue (by rw [h]) else isFalse (by intro hh; cases hh; exact h rfl)
  | .error a, .error b =>
    if h : a = b then isTrue (by rw [h]) else isFalse (by intro hh; cases hh; exact h rfl)
  | .ok _, .error _ => isFalse (by intro hh; cases hh)
  | .error _, .ok _ => isFalse (by intro hh; cases hh)

/-- `CStr::from_bytes_with_nul`: succeeds exactly when the byte string is
nonempty, ends with NUL, and contains no other NUL. -/
def cstrFromBytesWithNul (bytes : List Nat) : Option (List Nat) :=
  if bytes.getLast? = some 0 ∧ ¬ 0 ∈ bytes.dropLast then some bytes else none

/-- `CString::new`: fails when the bytes contain a NUL, otherwise appends the
terminating NUL. -/
def cstringNew (bytes : List Nat) : Option (List Nat) :=
  if 0 ∈ bytes then none else some (bytes ++ [0])

/-- `Cow<CStr>`: either the borrowed input bytes or a newly allocated
C string. -/
inductive CowCStr where
  | borrowed (bytes : List Nat)
  | owned (bytes : List Nat)
deriving DecidableEq, Repr

/-- The underlying C-string bytes of either `Cow` variant: the effective
kernel name (including its terminating NUL). -/
def CowCStr.bytes : CowCStr → List Nat
  | .borrowed b => b
  | .owned b => b

/-- `posixmq::name_from_bytes` (src/posixmq.rs lines 275-295).  `none` models
the `panic!` at the end of the function. -/
def name_from_bytes (name : List Nat) : Option CowCStr :=
  if name.head? = some 47 ∧ name.getLast? = some 0 then
    match cstrFromBytesWithNul name with
    | some borrowed => some (.borrowed borrowed)
    | none => none
  else
    let owned0 := (if name.head? = some 47 then [] else [47]) ++ name
    let owned1 := if name.getLast? = some 0 then owned0.dropLast else owned0
    match cstringNew owned1 with
    | some owned => some (.owned owned)
    | none => none

/-- `name_to_cstring` (src/posixmq.rs lines 298-305), the heap-allocating
path of `with_name_as_cstr`; a `NulError` converts to an
`ErrorKind::InvalidInput` io error. -/
def name_to_cstring (name : List Nat) : Except ErrKind (List Nat) :=
  let buf := if name.head? = some 47 then name else 47 :: name
  match cstringNew buf with
  | some c => .ok c
  | none => .error .invalidInput

/-- The fixed-size stack-buffer path of `with_name_as_cstr`
(src/posixmq.rs lines 316-322): the 32-byte buffer starts as all zeros,
byte 0 is set to the slash, bytes 1..len+1 are the name, and the slice of
length `name.length + 2` is handed to `CStr::from_bytes_with_nul`. -/
def shortNamePath (name : List Nat) : Except ErrKind (List Nat) :=
  match cstrFromBytesWithNul (47 :: (name ++ [0])) with
  | some c => .ok c
  | none => .error .invalidInput

/-- The leading-slash strip at the top of `with_name_as_cstr`
(src/posixmq.rs lines 310-312). -/
def stripLeadingSlash (name : List Nat) : List Nat :=
  if name.head? = some 47 then name.tail else name

/-- `with_name_as_cstr` (src/posixmq.rs lines 308-324), the internal
normalization used by `OpenOptions::open` and `unlink`, reduced to the
C string it passes to the continuation (or the error it returns). -/
def with_name_as_cstr (name0 : List Nat) : Except ErrKind (List Nat) :=
  let name := stripLeadingSlash name0
  if name.length > CSTR_BUF_SIZE - 2 then name_to_cstring name
  else shortNamePath name

/-- Removing one trailing NUL, as the owned branch of `name_from_bytes`
does with its final `pop`. -/
def stripTrailingNul (name : List Nat) : List Nat :=
  if name.getLast? = some 0 then name.dropLast else name

/-- `libc::timespec` restricted to the two fields the library sets. -/
structure Timespec where
  tv_sec : Int
  tv_nsec : Int
deriving DecidableEq, Repr

/-- `deadline_to_realtime` (src/posixmq.rs lines 621-659).  The input is an
abstract point in time, measured in (possibly negative) nanoseconds from the
epoch; `SystemTime::duration_since` splitting into whole seconds (`u64`) and
subsecond nanoseconds (`u32`) is computed by natural division.  The `Err`
variant carries the saturated timespec, just as in the source. -/
def deadline_to_realtime (t : Int) : Except Timespec Timespec :=
  if 0 ≤ t then
    let secs : Nat := t.toNat / 1000000000
    let nanos : Nat := t.toNat % 1000000000
    if timeTMax < (secs : Int) then .error ⟨timeTMax, 0⟩
    else .ok ⟨castU64ToI64 secs, (nanos : Int)⟩
  else
    let d : Nat := (-t).toNat
    let dsecs : Nat := d / 1000000000
    let dnanos : Nat := d % 1000000000
    if 2 ^ 63 * 1000000000 < d then .error ⟨timeTMin + 1, 0⟩
    else if dnanos = 0 then .ok ⟨wrapI64 (-(castU64ToI64 dsecs)), 0⟩
    else .ok ⟨wrapI64 (wrapI64 (-(castU64ToI64 dsecs)) - 1), NANO - (dnanos : Int)⟩

/-- `timeout_to_realtime` (src/posixmq.rs lines 663-689): `now_ns` is the
current `SystemTime` in nanoseconds from the epoch, the timeout is a
`Duration` given as whole seconds and subsecond nanoseconds. -/
def timeout_to_realtime (now_ns : Int) (tsecs tnanos : Nat) : Except ErrKind Timespec :=
  match deadline_to_realtime now_ns with
  | .error _ => .error .other
  | .ok now =>
    let sec1 := wrapI64 (now.tv_sec + castU64ToI64 tsecs)
    let nsec1 := now.tv_nsec + (tnanos : Int)
    let sec2 := wrapI64 (sec1 + nsec1 / NANO)
    let nsec2 := nsec1 % NANO
    if timeTMax < (tsecs : Int) ∨ sec2 < now.tv_sec then .error .invalidInput
    else .ok ⟨sec2, nsec2⟩

/-- The deadline-conversion stage of `PosixMq::send_deadline`
(src/posixmq.rs lines 823-829): a saturated (`Err`) conversion is rejected
as `ErrorKind::InvalidInput` ("deadline is not representable"); an `Ok`
conversion is the timespec handed to `timedsend`. -/
def send_deadline_expires (t : Int) : Except ErrKind Timespec :=
  match deadline_to_realtime t with
  | .ok expires => .ok expires
  | .error _ => .error .invalidInput

/-- The deadline-conversion stage of `PosixMq::receive_deadline`
(src/posixmq.rs lines 875-881), identical in structure to
`send_deadline_expires`. -/
def receive_deadline_expires (t : Int) : Except ErrKind Timespec :=
  match deadline_to_realtime t with
  | .ok expires => .ok expires
  | .error _ => .error .invalidInput

/-- The outcome of one raw system call: a non-`-1` return value, or `-1`
with the `errno`-derived error kind. -/
inductive SysRet where
  | ok (ret : Int)
  | fail (k : ErrKind)
deriving DecidableEq, Repr

/-- The `retry_if_interrupted!` macro (src/posixmq.rs lines 607-618): the
kernel is an oracle giving the outcome of the `i`-th attempt; the loop
retries while the outcome is `Interrupted` and otherwise stops with it.
The source loop is unbounded, so the embedding takes fuel and returns
`none` when the fuel runs out. -/
def retry_if_interrupted (call : Nat → SysRet) : Nat → Nat → Option SysRet
  | _, 0 => none
  | i, fuel + 1 =>
    match call i with
    | .fail .interrupted => retry_if_interrupted call (i + 1) fuel
    | r => some r

/-- The retry loop of `timedsend`/`timedreceive` (src/posixmq.rs lines
770-777 and 831-839): the oracle also receives the timespec passed to the
kernel on that attempt, and the embedding records the timespec passed on
each attempt.  The source passes the same `&timespec` reference on every
iteration. -/
def timed_retry (call : Nat → Timespec → SysRet) (deadline : Timespec) :
    Nat → Nat → Option SysRet × List Timespec
  | _, 0 => (none, [])
  | i, fuel + 1 =>
    match call i deadline with
    | .fail .interrupted =>
      let rest := timed_retry call deadline (i + 1) fuel
      (rest.1, deadline :: rest.2)
    | r => (some r, [deadline])

/-- `PosixMq::timedsend` (src/posixmq.rs lines 770-777). -/
def timedsend (call : Nat → Timespec → SysRet) (deadline : Timespec) (fuel : Nat) :
    Option SysRet × List Timespec :=
  timed_retry call deadline 0 fuel

/-- `PosixMq::timedreceive` (src/posixmq.rs lines 831-839). -/
def timedreceive (call : Nat → Timespec → SysRet) (deadline : Timespec) (fuel : Nat) :
    Option SysRet × List Timespec :=
  timed_retry call deadline 0 fuel

/-- `PosixMq::send_deadline` (src/posixmq.rs lines 823-829): convert the
deadline once, then run the retrying timed send with it. -/
def send_deadline_run (call : Nat → Timespec → SysRet) (t : Int) (fuel : Nat) :
    Except ErrKind (Option SysRet × List Timespec) :=
  match deadline_to_realtime t with
  | .ok expires => .ok (timedsend call expires fuel)
  | .error _ => .error .invalidInput

/-- `PosixMq::receive_deadline` (src/posixmq.rs lines 875-881). -/
def receive_deadline_run (call : Nat → Timespec → SysRet) (t : Int) (fuel : Nat) :
    Except ErrKind (Option SysRet × List Timespec) :=
  match deadline_to_realtime t with
  | .ok expires => .ok (timedreceive call expires fuel)
  | .error _ => .error .invalidInput

/-- The fields of `libc::mq_attr` the library reads. -/
structure MqAttr where
  mq_flags : Int
  mq_maxmsg : Int
  mq_msgsize : Int
  mq_curmsgs : Int
deriving DecidableEq, Repr

/-- `posixmq::Attributes` (src/posixmq.rs lines 593-604). -/
structure Attributes where
  max_msg_len : Nat
  capacity : Nat
  current_messages : Nat
  nonblocking : Bool
deriving DecidableEq, Repr

/-- `libc::O_NONBLOCK` on Linux. -/
def O_NONBLOCK : Int := 2048

/-- `PosixMq::attributes` (src/posixmq.rs lines 898-911): the kernel
`mq_getattr` call is an oracle returning `none` on failure (`ret == -1`)
or the filled `mq_attr` on success. -/
def attributes (getattr : Option MqAttr) : Attributes :=
  match getattr with
  | none => { max_msg_len := 0, capacity := 0, current_messages := 0, nonblocking := true }
  | some attrs =>
    { max_msg_len := castToUsize attrs.mq_msgsize
      capacity := castToUsize attrs.mq_maxmsg
      current_messages := castToUsize attrs.mq_curmsgs
      nonblocking := decide (Int.land attrs.mq_flags O_NONBLOCK ≠ 0) }

/-- What one call to `Iter::next`/`IntoIter::next` does. -/
inductive NextOutcome where
  | yields (priority : Nat) (msg : List Nat)
  | ends
  | panics (k : ErrKind)
deriving DecidableEq, Repr

/-- `Iter::next` (src/posixmq.rs lines 1264-1277): allocate a zeroed buffer
of the cached `max_msg_len`, call `receive` with it, end on `WouldBlock`,
panic on any other error, otherwise truncate the buffer to the returned
length and yield it.  The kernel receive is an oracle taking the buffer
length and returning the priority and the message bytes it wrote at the
start of the buffer. -/
def iter_next (max_msg_len : Nat) (recv : Nat → Except ErrKind (Nat × List Nat)) :
    NextOutcome :=
  let buf : List Nat := List.replicate max_msg_len 0
  match recv buf.length with
  | .error e => if e = .wouldBlock then .ends else .panics e
  | .ok (priority, msg) =>
    let filled := msg ++ buf.drop msg.length
    .yields priority (filled.take msg.length)

/-- `IntoIter::next` (src/posixmq.rs lines 1293-1298): builds a borrowed
`Iter` with its own cached `max_msg_len` and delegates to `Iter::next`. -/
def intoiter_next (max_msg_len : Nat) (recv : Nat → Except ErrKind (Nat × List Nat)) :
    NextOutcome :=
  iter_next max_msg_len recv

/-- Construction of `Iter`/`IntoIter` (src/posixmq.rs lines 1107-1127):
the buffer size is `attributes().max_msg_len`, cached at construction. -/
def iter_cached_len (getattr : Option MqAttr) : Nat :=
  (attributes getattr).max_msg_len

/-- `PosixMq` (src/posixmq.rs lines 698-700): owns one queue descriptor. -/
structure PosixMq where
  mqd : Int
deriving DecidableEq, Repr

/-- `PosixMq::into_raw_mqd` (src/posixmq.rs lines 1044-1048): reads the
descriptor, then `mem::forget(self)`. -/
def into_raw_mqd (mq : PosixMq) : Int := mq.mqd

/-- `IntoRawFd::into_raw_fd` (src/posixmq.rs lines 1098-1104): reads the
descriptor, then `mem::forget(self)`. -/
def into_raw_fd (mq : PosixMq) : Int := mq.mqd

/-- The ways a `PosixMq` value can be consumed: dropped (running the `Drop`
impl, src/posixmq.rs lines 1149-1153, which calls `mq_close` once), or moved
into `into_raw_mqd`/`into_raw_fd` (which `mem::forget` it, suppressing
`Drop`). -/
inductive MqEvent where
  | drop
  | intoRawMqd
  | intoRawFd
deriving DecidableEq, Repr

/-- Lifecycle state of one handle: whether the Rust value is still live
(Rust's affine ownership lets a live value be consumed exactly once), and
how many times `mq_close` has been called on its descriptor. -/
structure LifeState where
  alive : Bool
  closes : Nat
deriving DecidableEq, Repr

/-- One lifecycle step.  Any consuming event requires the value to be live
(enforced by the Rust move checker, hence `none` for the impossible case);
only `drop` runs `mq_close`, since `into_raw_mqd`/`into_raw_fd`
`mem::forget` the value. -/
def lifeStep (s : LifeState) (e : MqEvent) : Option LifeState :=
  if s.alive then
    match e with
    | .drop => some ⟨false, s.closes + 1⟩
    | .intoRawMqd => some ⟨false, s.closes⟩
    | .intoRawFd => some ⟨false, s.closes⟩
  else
    none

/-- Run a sequence of lifecycle events. -/
def lifeRun : LifeState → List MqEvent → Option LifeState
  | s, [] => some s
  | s, e :: es =>
    match lifeStep s e with
    | some s2 => lifeRun s2 es
    | none => none

end Posixmq

namespace Posixmq

theorem zero_mem_cons47 (t : List Nat) : 0 ∈ (47 :: t) ↔ 0 ∈ t := by
  simp [List.mem_cons]

theorem getLast?_ne_zero_of_not_mem {l : List Nat} (h : 0 ∉ l) : l.getLast? ≠ some 0 :=
  fun heq => h (List.mem_of_mem_getLast? heq)

theorem mem_stripLeadingSlash (n : List Nat) : 0 ∈ stripLeadingSlash n ↔ 0 ∈ n := by
  unfold stripLeadingSlash
  split
  · rename_i h
    cases n with
    | nil => simp at h
    | cons a t =>
      simp only [List.head?_cons, Option.some.injEq] at h
      subst h
      simp only [List.tail_cons]
      exact (zero_mem_cons47 t).symm
  · exact Iff.rfl

theorem name_to_cstring_eq (s : List Nat) :
    name_to_cstring s =
      if 0 ∈ s then .error .invalidInput
      else .ok ((if s.head? = some 47 then s else 47 :: s) ++ [0]) := by
  unfold name_to_cstring cstringNew
  by_cases h : s.head? = some 47
  · simp only [if_pos h]
    by_cases hm : 0 ∈ s
    · simp [hm]
    · simp [hm]
  · simp only [if_neg h]
    by_cases hm : 0 ∈ s
    · simp [hm, List.mem_cons]
    · simp [hm, List.mem_cons]

theorem shortNamePath_eq (s : List Nat) :
    shortNamePath s =
      if 0 ∈ s then .error .invalidInput else .ok (47 :: s ++ [0]) := by
  unfold shortNamePath cstrFromBytesWithNul
  have hsplit : 47 :: (s ++ [0]) = (47 :: s) ++ [0] := by simp
  rw [hsplit, List.getLast?_concat, List.dropLast_concat]
  by_cases hm : 0 ∈ s
  · simp [hm, List.mem_cons]
  · simp [hm, List.mem_cons]

theorem with_name_as_cstr_error_iff (n : List Nat) :
    with_name_as_cstr n = .error .invalidInput ↔ 0 ∈ n := by
  rw [← mem_stripLeadingSlash]
  unfold with_name_as_cstr
  by_cases hlen : (stripLeadingSlash n).length > CSTR_BUF_SIZE - 2
  · rw [if_pos hlen, name_to_cstring_eq]
    by_cases hm : 0 ∈ stripLeadingSlash n
    · simp [hm]
    · simp [hm]
  · rw [if_neg hlen, shortNamePath_eq]
    by_cases hm : 0 ∈ stripLeadingSlash n
    · simp [hm]
    · simp [hm]

end Posixmq

namespace Posixmq

theorem name_from_bytes_eq (n : List Nat) :
    name_from_bytes n =
      if n.head? = some 47 ∧ n.getLast? = some 0 then
        if 0 ∈ n.dropLast then none else some (.borrowed n)
      else if 0 ∈ stripTrailingNul n then none
      else
        some (.owned ((if n.head? = some 47 then [] else [47]) ++ (stripTrailingNul n ++ [0]))) := by
  by_cases hc : n.head? = some 47 ∧ n.getLast? = some 0
  · obtain ⟨h1, h2⟩ := hc
    by_cases hm : 0 ∈ n.dropLast
    · simp [name_from_bytes, cstrFromBytesWithNul, h1, h2, hm]
    · simp [name_from_bytes, cstrFromBytesWithNul, h1, h2, hm]
  · simp only [name_from_bytes, cstringNew, if_neg hc]
    by_cases hl : n.getLast? = some 0
    · have hh : ¬ n.head? = some 47 := fun hh => hc ⟨hh, hl⟩
      have hne : n ≠ [] := by intro h; subst h; simp at hl
      have hdl : (([47] : List Nat) ++ n).dropLast = 47 :: n.dropLast := by
        cases n with
        | nil => exact absurd rfl hne
        | cons b t => cases t <;> rfl
      simp only [if_neg hh, if_pos hl, hdl, stripTrailingNul]
      by_cases hm : 0 ∈ n.dropLast
      · simp [hm, List.mem_cons]
      · simp [hm, List.mem_cons]
    · simp only [if_neg hl, stripTrailingNul]
      by_cases hh : n.head? = some 47
      · simp only [if_pos hh, List.nil_append]
        by_cases hm : 0 ∈ n
        · simp [hm]
        · simp [hm]
      · simp only [if_neg hh]
        by_cases hm : 0 ∈ n
        · simp [hm, List.mem_cons]
        · simp [hm, List.mem_cons]

/-- C7: `name_from_bytes` returns the input borrowed (no allocation) exactly
when it begins with a slash, ends with a NUL, and contains no other NUL;
any borrowed result is the input itself; otherwise, when no interior NUL
remains after stripping one pre-existing trailing NUL, it returns a newly
allocated C string equal to the input with a slash prepended if absent, one
trailing NUL stripped, and a terminating NUL appended. -/
theorem name_from_bytes_spec (name : List Nat) :
    (name_from_bytes name = some (.borrowed name) ↔
      (name.head? = some 47 ∧ name.getLast? = some 0 ∧ 0 ∉ name.dropLast))
    ∧ (∀ c : List Nat, name_from_bytes name = some (.borrowed c) → c = name)
    ∧ (¬(name.head? = some 47 ∧ name.getLast? = some 0) → 0 ∉ stripTrailingNul name →
        name_from_bytes name =
          some (.owned ((if name.head? = some 47 then [] else [47]) ++
            (stripTrailingNul name ++ [0])))) := by
  refine ⟨?_, ?_, ?_⟩
  · rw [name_from_bytes_eq]
    by_cases hc : name.head? = some 47 ∧ name.getLast? = some 0
    · rw [if_pos hc]
      by_cases hm : 0 ∈ name.dropLast
      · simp [hm, hc.1, hc.2]
      · simp [hm, hc.1, hc.2]
    · rw [if_neg hc]
      by_cases hm : 0 ∈ stripTrailingNul name
      · simp only [if_pos hm]
        constructor
        · intro h; exact absurd h (by simp)
        · intro h; exact absurd ⟨h.1, h.2.1⟩ hc
      · simp only [if_neg hm]
        constructor
        · intro h; exact absurd h (by simp)
        · intro h; exact absurd ⟨h.1, h.2.1⟩ hc
  · intro c h
    rw [name_from_bytes_eq] at h
    split_ifs at h <;> simp_all
  · intro hc hm
    rw [name_from_bytes_eq, if_neg hc, if_neg hm]

/-- Witness for C7 at the concrete names "/a\0" (borrowed) and "a"
(allocated). -/
theorem name_from_bytes_spec_witness :
    name_from_bytes [47, 97, 0] = some (.borrowed [47, 97, 0]) ∧
    name_from_bytes [97] = some (.owned [47, 97, 0]) := by
  constructor
  · exact (name_from_bytes_spec [47, 97, 0]).1.mpr (by decide)
  · exact (name_from_bytes_spec [97]).2.2 (by decide) (by decide)

end Posixmq

namespace Posixmq

/-- Counterexample for C8: on the name "a\0" (a single trailing NUL), the
panicking conversion `name_from_bytes` succeeds (the trailing NUL is
stripped during normalization), yet the internal normalization used by
`open` and `unlink` rejects the very same input with an invalid-input
error, so the two entry points do not fail on the same set of inputs. -/
theorem nul_handling_entry_points_cex :
    name_from_bytes [97, 0] = some (.owned [47, 97, 0]) ∧
    with_name_as_cstr [97, 0] = .error .invalidInput := by decide

/-- C8 amended: `name_from_bytes` panics exactly when a NUL remains after
stripping one trailing NUL, while `with_name_as_cstr` (used by `open` and
`unlink`) returns an invalid-input error exactly when the name contains any
NUL at all — a strictly larger set, since it never strips a trailing NUL. -/
theorem nul_handling_entry_points_amended (name : List Nat) :
    (name_from_bytes name = none ↔ 0 ∈ stripTrailingNul name) ∧
    (with_name_as_cstr name = .error .invalidInput ↔ 0 ∈ name) := by
  refine ⟨?_, with_name_as_cstr_error_iff name⟩
  rw [name_from_bytes_eq]
  by_cases hc : name.head? = some 47 ∧ name.getLast? = some 0
  · rw [if_pos hc]
    have hstrip : stripTrailingNul name = name.dropLast := by
      rw [stripTrailingNul, if_pos hc.2]
    by_cases hm : 0 ∈ name.dropLast
    · simp [hm, hstrip]
    · simp [hm, hstrip]
  · rw [if_neg hc]
    by_cases hm : 0 ∈ stripTrailingNul name
    · simp [hm]
    · simp [hm]

/-- Witness for C8 amended at "/\0a" (interior NUL: panic) and "a\0"
(trailing NUL only: invalid-input from the internal normalization). -/
theorem nul_handling_entry_points_amended_witness :
    name_from_bytes [47, 0, 97] = none ∧
    with_name_as_cstr [97, 0] = .error .invalidInput :=
  ⟨(nul_handling_entry_points_amended [47, 0, 97]).1.mpr (by decide),
   (nul_handling_entry_points_amended [97, 0]).2.mpr (by decide)⟩

/-- Counterexample for C9: both paths applied to the same stripped name
"/a" give different C strings (the stack path re-prepends a slash, the heap
path does not), and on the 32-byte name "//aaa…a" (stripped length 31, so
the heap path is taken) `with_name_as_cstr` does not produce a slash
followed by the stripped name: the second slash is not doubled. -/
theorem short_long_path_cex :
    shortNamePath [47, 97] = .ok [47, 47, 97, 0] ∧
    name_to_cstring [47, 97] = .ok [47, 97, 0] ∧
    with_name_as_cstr (47 :: 47 :: List.replicate 30 97) =
      .ok (47 :: (List.replicate 30 97 ++ [0])) := by decide

/-- C9 amended: after stripping one leading slash, the stack-buffer path
and the heap path of `with_name_as_cstr` agree exactly when the remaining
name does not itself begin with a slash (or contains a NUL, in which case
both fail with invalid-input): on NUL-free names both yield the slash
followed by the name and a terminating NUL, but when the remaining name
still begins with a slash the heap path does not prepend another slash
while the stack path does, so the two paths differ. -/
theorem short_long_path_amended (s : List Nat) :
    (shortNamePath s = name_to_cstring s ↔ (s.head? ≠ some 47 ∨ 0 ∈ s)) ∧
    (0 ∈ s → shortNamePath s = .error .invalidInput ∧
      name_to_cstring s = .error .invalidInput) ∧
    (0 ∉ s → shortNamePath s = .ok (47 :: s ++ [0])) ∧
    (0 ∉ s → s.head? ≠ some 47 → name_to_cstring s = .ok (47 :: s ++ [0])) := by
  rw [shortNamePath_eq, name_to_cstring_eq]
  by_cases hm : 0 ∈ s
  · simp [hm]
  · by_cases hh : s.head? = some 47
    · have hne : ¬ (47 :: s ++ [0] = s ++ [0]) := by
        intro h
        have := congrArg List.length h
        simp at this
      simp [hm, hh, hne]
    · simp [hm, hh]

/-- Witness for C9 amended at the stripped names "a" (paths agree) and
"/a" (paths disagree). -/
theorem short_long_path_amended_witness :
    shortNamePath [97] = name_to_cstring [97] ∧
    shortNamePath [97] = .ok [47, 97, 0] ∧
    ¬ (shortNamePath [47, 97] = name_to_cstring [47, 97]) :=
  ⟨(short_long_path_amended [97]).1.mpr (Or.inl (by decide)),
   (short_long_path_amended [97]).2.2.1 (by decide),
   fun h => by
     have := (short_long_path_amended [47, 97]).1.mp h
     exact absurd this (by decide)⟩

end Posixmq

namespace Posixmq

/-- Counterexample for C2: for the well-formed name "/a" (no NUL anywhere),
the internal normalization used by `open` and `unlink` accepts "/a" but
rejects "/a\0" with an invalid-input error instead of producing the same
effective kernel name. -/
theorem trailing_nul_internal_normalization_cex :
    with_name_as_cstr [47, 97] = .ok [47, 97, 0] ∧
    with_name_as_cstr [47, 97, 0] = .error .invalidInput := by decide

theorem map_bytes_name_from_bytes_no_nul (N : List Nat) (h : 0 ∉ N) :
    Option.map CowCStr.bytes (name_from_bytes N) =
      some ((if N.head? = some 47 then [] else [47]) ++ (N ++ [0])) := by
  have hlastN : N.getLast? ≠ some 0 := getLast?_ne_zero_of_not_mem h
  have hstripN : stripTrailingNul N = N := by rw [stripTrailingNul, if_neg hlastN]
  rw [name_from_bytes_eq, if_neg (fun hc => hlastN hc.2), hstripN, if_neg h]
  simp [CowCStr.bytes]

theorem map_bytes_name_from_bytes_concat_nul (N : List Nat) (h : 0 ∉ N) :
    Option.map CowCStr.bytes (name_from_bytes (N ++ [0])) =
      some ((if N.head? = some 47 then [] else [47]) ++ (N ++ [0])) := by
  have hlast : (N ++ [0]).getLast? = some 0 := List.getLast?_concat N
  have hdrop : (N ++ [0]).dropLast = N := List.dropLast_concat
  have hstrip : stripTrailingNul (N ++ [0]) = N := by
    rw [stripTrailingNul, if_pos hlast, hdrop]
  rw [name_from_bytes_eq, hstrip]
  cases N with
  | nil => decide
  | cons a t =>
    have hhead : ((a :: t) ++ [0]).head? = some a := rfl
    by_cases ha : a = 47
    · subst ha
      rw [if_pos ⟨hhead, hlast⟩, hdrop, if_neg h]
      simp [CowCStr.bytes]
    · have hha : ¬ ((a :: t) ++ [0]).head? = some 47 := by
        rw [hhead]; intro hh; exact ha (Option.some.inj hh)
      have hhaN : ¬ (a :: t).head? = some 47 := by
        intro hh; exact ha (Option.some.inj hh)
      rw [if_neg (fun hc => hha hc.1), if_neg h, if_neg hha, if_neg hhaN]
      simp [CowCStr.bytes]

/-- C2 amended: for every name without NUL bytes, the public
`name_from_bytes` conversion yields the same effective kernel name for `N`
and `N ++ "\0"`; the internal normalization used by `open` and `unlink`
does not share this property: it rejects `N ++ "\0"` with an invalid-input
error, because it never strips a trailing NUL. -/
theorem trailing_nul_normalization_amended (N : List Nat) (h : 0 ∉ N) :
    Option.map CowCStr.bytes (name_from_bytes (N ++ [0])) =
      Option.map CowCStr.bytes (name_from_bytes N) ∧
    with_name_as_cstr (N ++ [0]) = .error .invalidInput := by
  refine ⟨?_, (with_name_as_cstr_error_iff _).mpr (by simp)⟩
  rw [map_bytes_name_from_bytes_no_nul N h, map_bytes_name_from_bytes_concat_nul N h]

/-- Witness for C2 amended at the name "a". -/
theorem trailing_nul_normalization_amended_witness :
    Option.map CowCStr.bytes (name_from_bytes [97, 0]) =
      Option.map CowCStr.bytes (name_from_bytes [97]) ∧
    with_name_as_cstr [97, 0] = .error .invalidInput :=
  trailing_nul_normalization_amended [97] (by decide)

end Posixmq

namespace Posixmq

theorem wrapI64_eq_self {x : Int} (h1 : -(2 ^ 63) ≤ x) (h2 : x < 2 ^ 63) :
    wrapI64 x = x := by
  have hpow : (2 : Int) ^ 64 = 2 ^ 63 + 2 ^ 63 := by norm_num
  have h0 : 0 ≤ x + 2 ^ 63 := by linarith
  have h3 : x + 2 ^ 63 < 2 ^ 64 := by rw [hpow]; linarith
  rw [wrapI64, Int.emod_eq_of_lt h0 h3]
  ring

theorem wrap_neg_cast (D : Nat) (hD : (D : Int) ≤ 2 ^ 63) :
    wrapI64 (-(castU64ToI64 D)) = -(D : Int) := by
  have hD0 : (0 : Int) ≤ (D : Int) := Int.natCast_nonneg D
  by_cases hlt : (D : Int) < 2 ^ 63
  · have h1 : castU64ToI64 D = (D : Int) :=
      wrapI64_eq_self (by linarith) hlt
    rw [h1]
    exact wrapI64_eq_self (by linarith) (by linarith)
  · have hD' : (D : Int) = 2 ^ 63 := le_antisymm hD (not_lt.mp hlt)
    simp only [castU64ToI64, wrapI64, hD']
    norm_num

/-- C3: for every representable point in time strictly before the epoch,
`D` whole seconds plus fractional part `f` nanoseconds, the conversion
re-expresses the sub-second field as counting toward positive infinity:
the timespec is `(-(D+1), 1e9 - f)` when `f` is non-zero and `(-D, 0)`
when `f` is zero. -/
theorem pre_epoch_deadline_conversion (D f : Nat) (hf : f < 1000000000)
    (hrange : (D : Int) * 1000000000 + (f : Int) ≤ 2 ^ 63 * 1000000000)
    (hpos : 0 < D * 1000000000 + f) :
    deadline_to_realtime (-((D * 1000000000 + f : Nat) : Int)) =
      if f = 0 then .ok ⟨-(D : Int), 0⟩
      else .ok ⟨-(D : Int) - 1, 1000000000 - (f : Int)⟩ := by
  have h63i : (2 : Int) ^ 63 = 9223372036854775808 := by norm_num
  have h63n : (2 : Nat) ^ 63 = 9223372036854775808 := by norm_num
  have h0 : ¬ (0 ≤ -((D * 1000000000 + f : Nat) : Int)) := by
    push_cast
    omega
  have hrange' : D * 1000000000 + f ≤ 9223372036854775808 * 1000000000 := by
    rw [h63i] at hrange
    push_cast at hrange
    omega
  have hsec : (D * 1000000000 + f) / 1000000000 = D := by omega
  have hmod : (D * 1000000000 + f) % 1000000000 = f := by omega
  simp only [deadline_to_realtime, if_neg h0, neg_neg, Int.toNat_natCast, hsec, hmod]
  rw [if_neg (by rw [h63n]; omega)]
  by_cases hf0 : f = 0
  · rw [if_pos hf0, if_pos hf0]
    have hD : (D : Int) ≤ 2 ^ 63 := by
      rw [h63i]
      subst hf0
      push_cast at hrange'
      omega
    rw [wrap_neg_cast D hD]
  · rw [if_neg hf0, if_neg hf0]
    have hDlt : (D : Int) < 2 ^ 63 := by
      rw [h63i]
      have hf1 : 1 ≤ f := Nat.one_le_iff_ne_zero.mpr hf0
      push_cast at hrange' ⊢
      omega
    have hD0 : (0 : Int) ≤ (D : Int) := Int.natCast_nonneg D
    have h1 : castU64ToI64 D = (D : Int) := wrapI64_eq_self (by linarith) hDlt
    rw [h1, wrapI64_eq_self (x := -(D : Int)) (by linarith) (by linarith),
      wrapI64_eq_self (x := -(D : Int) - 1) (by linarith) (by linarith)]
    simp [NANO]

/-- Witness for C3 at 1.5 seconds before the epoch and 10 seconds before
the epoch. -/
theorem pre_epoch_deadline_conversion_witness :
    deadline_to_realtime (-1500000000) = .ok ⟨-2, 500000000⟩ ∧
    deadline_to_realtime (-10000000000) = .ok ⟨-10, 0⟩ := by
  constructor
  · have h := pre_epoch_deadline_conversion 1 500000000
      (by norm_num) (by norm_num) (by norm_num)
    rw [if_neg (by norm_num)] at h
    exact h.trans (by norm_num)
  · have h := pre_epoch_deadline_conversion 10 0
      (by norm_num) (by norm_num) (by norm_num)
    rw [if_pos rfl] at h
    exact h.trans (by norm_num)

end Posixmq

namespace Posixmq

/-- Counterexample for C1: at the deadline 2^63 seconds after the epoch the
seconds field overflows `time_t`; `deadline_to_realtime` saturates but
reports the saturated timespec through its error variant, and
`send_deadline`/`receive_deadline` reject it as an invalid-input error
("deadline is not representable") instead of proceeding as a success-path
timed call. -/
theorem deadline_overflow_rejected_cex :
    deadline_to_realtime (2 ^ 63 * 1000000000) = .error ⟨timeTMax, 0⟩ ∧
    send_deadline_expires (2 ^ 63 * 1000000000) = .error .invalidInput ∧
    receive_deadline_expires (2 ^ 63 * 1000000000) = .error .invalidInput := by
  decide

/-- C1 amended: a deadline whose whole-seconds distance from the epoch
overflows `time_t` saturates the seconds field (to the maximum value
forward, and to the minimum value plus one backward), but the saturated
timespec is returned through the error variant and
`send_deadline`/`receive_deadline` reject it as an invalid-input error
rather than proceeding; `send_timeout`/`receive_timeout` likewise reject a
timeout whose seconds exceed `time_t` as invalid-input (or report the
current time itself as unrepresentable). -/
theorem deadline_overflow_saturates_and_rejected (t : Int) :
    (2 ^ 63 * 1000000000 ≤ t →
      deadline_to_realtime t = .error ⟨timeTMax, 0⟩ ∧
      send_deadline_expires t = .error .invalidInput ∧
      receive_deadline_expires t = .error .invalidInput) ∧
    (t < -(2 ^ 63 * 1000000000) →
      deadline_to_realtime t = .error ⟨timeTMin + 1, 0⟩ ∧
      send_deadline_expires t = .error .invalidInput ∧
      receive_deadline_expires t = .error .invalidInput) ∧
    (∀ n : Int, ∀ ts tn : Nat, timeTMax < (ts : Int) →
      timeout_to_realtime n ts tn = .error .invalidInput ∨
      timeout_to_realtime n ts tn = .error .other) := by
  have h63i : (2 : Int) ^ 63 = 9223372036854775808 := by norm_num
  have h63n : (2 : Nat) ^ 63 = 9223372036854775808 := by norm_num
  refine ⟨?_, ?_, ?_⟩
  · intro h
    have h0 : 0 ≤ t := le_trans (by norm_num) h
    have hbig : 9223372036854775808 * 1000000000 ≤ t.toNat := by
      rw [h63i] at h
      omega
    have hdivb : 9223372036854775808 ≤ t.toNat / 1000000000 :=
      (Nat.le_div_iff_mul_le (by norm_num)).mpr hbig
    have hg : timeTMax < ((t.toNat / 1000000000 : Nat) : Int) := by
      rw [timeTMax, h63i]
      omega
    have hdl : deadline_to_realtime t = .error ⟨timeTMax, 0⟩ := by
      simp only [deadline_to_realtime, if_pos h0, if_pos hg]
    exact ⟨hdl, by simp only [send_deadline_expires, hdl],
      by simp only [receive_deadline_expires, hdl]⟩
  · intro h
    have h0 : ¬ (0 ≤ t) := by
      rw [h63i] at h
      omega
    have hbig : 9223372036854775808 * 1000000000 < (-t).toNat := by
      rw [h63i] at h
      omega
    have hg : 2 ^ 63 * 1000000000 < (-t).toNat := by
      rw [h63n]
      exact hbig
    have hdl : deadline_to_realtime t = .error ⟨timeTMin + 1, 0⟩ := by
      simp only [deadline_to_realtime, if_neg h0, if_pos hg]
    exact ⟨hdl, by simp only [send_deadline_expires, hdl],
      by simp only [receive_deadline_expires, hdl]⟩
  · intro n ts tn hts
    cases hd : deadline_to_realtime n with
    | error e =>
      right
      simp only [timeout_to_realtime, hd]
    | ok now =>
      left
      simp only [timeout_to_realtime, hd, if_pos (Or.inl hts)]

/-- Witness for C1 amended at 2^63 seconds after the epoch, one nanosecond
beyond 2^63 seconds before the epoch, and a 2^64-second timeout. -/
theorem deadline_overflow_saturates_and_rejected_witness :
    deadline_to_realtime (-(2 ^ 63 * 1000000000) - 1) = .error ⟨timeTMin + 1, 0⟩ ∧
    send_deadline_expires (2 ^ 63 * 1000000000 + 5) = .error .invalidInput ∧
    (timeout_to_realtime 0 (2 ^ 64) 0 = .error .invalidInput ∨
     timeout_to_realtime 0 (2 ^ 64) 0 = .error .other) :=
  ⟨((deadline_overflow_saturates_and_rejected (-(2 ^ 63 * 1000000000) - 1)).2.1
      (by norm_num)).1,
   ((deadline_overflow_saturates_and_rejected (2 ^ 63 * 1000000000 + 5)).1
      (by norm_num)).2.1,
   (deadline_overflow_saturates_and_rejected 0).2.2 0 (2 ^ 64) 0
      (by norm_num [timeTMax])⟩

end Posixmq

namespace Posixmq

theorem retry_if_interrupted_ne_interrupted (call : Nat → SysRet) :
    ∀ (fuel i : Nat) (k : ErrKind),
      retry_if_interrupted call i fuel = some (.fail k) → k ≠ .interrupted := by
  intro fuel
  induction fuel with
  | zero =>
    intro i k h
    simp [retry_if_interrupted] at h
  | succ n ih =>
    intro i k h
    cases hc : call i with
    | ok r =>
      simp only [retry_if_interrupted, hc] at h
      exact absurd h (by simp)
    | fail e =>
      cases e <;>
        simp only [retry_if_interrupted, hc, Option.some.injEq, SysRet.fail.injEq] at h
      case interrupted => exact ih (i + 1) k h
      all_goals (subst h; decide)

theorem timed_retry_fail_ne_interrupted (call : Nat → Timespec → SysRet) (d : Timespec) :
    ∀ (fuel i : Nat) (k : ErrKind),
      (timed_retry call d i fuel).1 = some (.fail k) → k ≠ .interrupted := by
  intro fuel
  induction fuel with
  | zero =>
    intro i k h
    simp [timed_retry] at h
  | succ n ih =>
    intro i k h
    cases hc : call i d with
    | ok r =>
      simp only [timed_retry, hc] at h
      exact absurd h (by simp)
    | fail e =>
      cases e <;>
        simp only [timed_retry, hc, Option.some.injEq, SysRet.fail.injEq] at h
      case interrupted => exact ih (i + 1) k h
      all_goals (subst h; decide)

theorem timed_retry_trace_const (call : Nat → Timespec → SysRet) (d : Timespec) :
    ∀ (fuel i : Nat) (x : Timespec), x ∈ (timed_retry call d i fuel).2 → x = d := by
  intro fuel
  induction fuel with
  | zero =>
    intro i x h
    simp [timed_retry] at h
  | succ n ih =>
    intro i x h
    cases hc : call i d with
    | ok r =>
      simp only [timed_retry, hc] at h
      simp at h
      exact h
    | fail e =>
      cases e <;> simp only [timed_retry, hc] at h <;>
        first
          | (rcases List.mem_cons.mp h with h1 | h1
             · exact h1
             · exact ih (i + 1) x h1)
          | (simp at h; exact h)

/-- C4: the retry loop shared by every send and receive variant never
surfaces an interrupted-system-call outcome to the caller, and in the timed
variants every retry passes the identical timespec; `send_deadline` and
`receive_deadline` compute the absolute deadline once and every kernel
attempt receives exactly that value. -/
theorem retry_semantics :
    (∀ (call : Nat → SysRet) (i fuel : Nat) (k : ErrKind),
      retry_if_interrupted call i fuel = some (.fail k) → k ≠ .interrupted) ∧
    (∀ (call : Nat → Timespec → SysRet) (d : Timespec) (i fuel : Nat) (k : ErrKind),
      (timed_retry call d i fuel).1 = some (.fail k) → k ≠ .interrupted) ∧
    (∀ (call : Nat → Timespec → SysRet) (d : Timespec) (i fuel : Nat) (x : Timespec),
      x ∈ (timed_retry call d i fuel).2 → x = d) ∧
    (∀ (call : Nat → Timespec → SysRet) (t : Int) (fuel : Nat)
        (res : Option SysRet × List Timespec),
      send_deadline_run call t fuel = .ok res →
      ∃ e, deadline_to_realtime t = .ok e ∧ ∀ x ∈ res.2, x = e) ∧
    (∀ (call : Nat → Timespec → SysRet) (t : Int) (fuel : Nat)
        (res : Option SysRet × List Timespec),
      receive_deadline_run call t fuel = .ok res →
      ∃ e, deadline_to_realtime t = .ok e ∧ ∀ x ∈ res.2, x = e) := by
  refine ⟨fun call i fuel => retry_if_interrupted_ne_interrupted call fuel i,
    fun call d i fuel => timed_retry_fail_ne_interrupted call d fuel i,
    fun call d i fuel => timed_retry_trace_const call d fuel i, ?_, ?_⟩
  · intro call t fuel res h
    cases hd : deadline_to_realtime t with
    | error e => simp [send_deadline_run, hd] at h
    | ok e =>
      simp only [send_deadline_run, hd, Except.ok.injEq] at h
      subst h
      exact ⟨e, rfl, fun x hx => timed_retry_trace_const call e fuel 0 x hx⟩
  · intro call t fuel res h
    cases hd : deadline_to_realtime t with
    | error e => simp [receive_deadline_run, hd] at h
    | ok e =>
      simp only [receive_deadline_run, hd, Except.ok.injEq] at h
      subst h
      exact ⟨e, rfl, fun x hx => timed_retry_trace_const call e fuel 0 x hx⟩

/-- Witness for C4 on concrete kernel oracles: two interruptions followed
by a timed-out failure (surfaced as timed-out, never as interrupted), and a
timed retry whose recorded per-attempt deadlines are all the one deadline. -/
theorem retry_semantics_witness :
    retry_if_interrupted (fun i => if i = 0 then .fail .interrupted else .fail .timedOut) 0 3 =
      some (.fail .timedOut) ∧
    ErrKind.timedOut ≠ ErrKind.interrupted ∧
    (timed_retry (fun i _ => if i < 2 then .fail .interrupted else .ok 0) ⟨1, 2⟩ 0 5).2 =
      [⟨1, 2⟩, ⟨1, 2⟩, ⟨1, 2⟩] ∧
    (⟨1, 2⟩ : Timespec) = ⟨1, 2⟩ :=
  ⟨by decide,
   retry_semantics.1 (fun i => if i = 0 then .fail .interrupted else .fail .timedOut) 0 3
     .timedOut (by decide),
   by decide,
   retry_semantics.2.2.1 (fun i _ => if i < 2 then .fail .interrupted else .ok 0)
     ⟨1, 2⟩ 0 5 ⟨1, 2⟩ (by decide)⟩

/-- C5: `attributes()` is a total function into valid snapshots — it never
returns an error; a failed kernel attribute query yields the degraded
snapshot (all sizes zero, non-blocking reported true) and a successful one
yields the queried values. -/
theorem attributes_total_spec :
    attributes none =
      { max_msg_len := 0, capacity := 0, current_messages := 0, nonblocking := true } ∧
    ∀ a : MqAttr, attributes (some a) =
      { max_msg_len := castToUsize a.mq_msgsize
        capacity := castToUsize a.mq_maxmsg
        current_messages := castToUsize a.mq_curmsgs
        nonblocking := decide (Int.land a.mq_flags O_NONBLOCK ≠ 0) } :=
  ⟨rfl, fun _ => rfl⟩

theorem iter_next_eq (m : Nat) (recv : Nat → Except ErrKind (Nat × List Nat)) :
    iter_next m recv =
      match recv m with
      | .error e => if e = .wouldBlock then .ends else .panics e
      | .ok (p, msg) =>
        .yields p ((msg ++ (List.replicate m 0).drop msg.length).take msg.length) := by
  simp only [iter_next, List.length_replicate]

/-- C6: `next()` on either iterator returns `none` exactly when the receive
fails with would-block, panics on any other error kind, and otherwise
yields the priority and message bytes, calling receive with a buffer sized
to the `max_msg_len` cached at iterator construction; the owning iterator
delegates to the borrowed one. -/
theorem iterator_next_spec (m : Nat) (recv : Nat → Except ErrKind (Nat × List Nat)) :
    (iter_next m recv = .ends ↔ recv m = .error .wouldBlock) ∧
    (∀ e : ErrKind, e ≠ .wouldBlock → recv m = .error e → iter_next m recv = .panics e) ∧
    (∀ (p : Nat) (msg : List Nat), recv m = .ok (p, msg) →
      iter_next m recv = .yields p msg) ∧
    intoiter_next m recv = iter_next m recv := by
  refine ⟨?_, ?_, ?_, rfl⟩
  · rw [iter_next_eq]
    cases hr : recv m with
    | error e =>
      by_cases he : e = .wouldBlock
      · subst he
        simp
      · simp [he]
    | ok pm =>
      obtain ⟨p, msg⟩ := pm
      simp
  · intro e he hr
    rw [iter_next_eq, hr]
    simp [he]
  · intro p msg hr
    rw [iter_next_eq, hr]
    simp only [List.take_left]

/-- Witness for C6 on concrete receive oracles: would-block ends the
iteration, any other error panics, success yields the message. -/
theorem iterator_next_spec_witness :
    iter_next 5 (fun _ => .error .wouldBlock) = .ends ∧
    iter_next 4 (fun _ => .error .other) = .panics .other ∧
    iter_next 3 (fun _ => .ok (7, [1, 2])) = .yields 7 [1, 2] :=
  ⟨(iterator_next_spec 5 (fun _ => .error .wouldBlock)).1.mpr rfl,
   (iterator_next_spec 4 (fun _ => .error .other)).2.1 .other (by decide) rfl,
   (iterator_next_spec 3 (fun _ => .ok (7, [1, 2]))).2.2.1 7 [1, 2] rfl⟩

theorem lifeRun_dead (es : List MqEvent) (c : Nat) (s2 : LifeState)
    (h : lifeRun ⟨false, c⟩ es = some s2) : s2 = ⟨false, c⟩ ∧ es = [] := by
  cases es with
  | nil =>
    simp only [lifeRun, Option.some.injEq] at h
    exact ⟨h.symm, rfl⟩
  | cons e es => simp [lifeRun, lifeStep] at h

/-- C10: from a live handle that has never closed its descriptor, any valid
sequence of consuming events closes the descriptor at most once: exactly
once when the handle is dropped and zero times when it is consumed by
`into_raw_mqd`/`into_raw_fd`, which return the descriptor unchanged with
the `Drop` close suppressed. -/
theorem descriptor_close_at_most_once (tr : List MqEvent) (s2 : LifeState)
    (h : lifeRun ⟨true, 0⟩ tr = some s2) :
    s2.closes ≤ 1 ∧
    (s2.closes = 1 ↔ MqEvent.drop ∈ tr) ∧
    ((MqEvent.intoRawMqd ∈ tr ∨ MqEvent.intoRawFd ∈ tr) → s2.closes = 0) ∧
    (∀ mq : PosixMq, into_raw_mqd mq = mq.mqd ∧ into_raw_fd mq = mq.mqd) := by
  cases tr with
  | nil =>
    simp only [lifeRun, Option.some.injEq] at h
    subst h
    exact ⟨by decide, by simp, by simp, fun mq => ⟨rfl, rfl⟩⟩
  | cons e es =>
    cases e with
    | drop =>
      simp only [lifeRun, lifeStep, if_pos rfl] at h
      obtain ⟨hs, hes⟩ := lifeRun_dead es 1 s2 (by simpa using h)
      subst hs
      subst hes
      refine ⟨by decide, by simp, ?_, fun mq => ⟨rfl, rfl⟩⟩
      intro hmem
      rcases hmem with hmem | hmem <;> simp at hmem
    | intoRawMqd =>
      simp only [lifeRun, lifeStep, if_pos rfl] at h
      obtain ⟨hs, hes⟩ := lifeRun_dead es 0 s2 (by simpa using h)
      subst hs
      subst hes
      exact ⟨by decide, by simp, fun _ => rfl, fun mq => ⟨rfl, rfl⟩⟩
    | intoRawFd =>
      simp only [lifeRun, lifeStep, if_pos rfl] at h
      obtain ⟨hs, hes⟩ := lifeRun_dead es 0 s2 (by simpa using h)
      subst hs
      subst hes
      exact ⟨by decide, by simp, fun _ => rfl, fun mq => ⟨rfl, rfl⟩⟩

/-- Witness for C10 at the two one-event traces. -/
theorem descriptor_close_at_most_once_witness :
    lifeRun ⟨true, 0⟩ [MqEvent.intoRawMqd] = some ⟨false, 0⟩ ∧
    (LifeState.mk false 0).closes = 0 ∧
    lifeRun ⟨true, 0⟩ [MqEvent.drop] = some ⟨false, 1⟩ ∧
    ((LifeState.mk false 1).closes = 1 ↔ MqEvent.drop ∈ [MqEvent.drop]) :=
  ⟨by decide,
   (descriptor_close_at_most_once [MqEvent.intoRawMqd] ⟨false, 0⟩ (by decide)).2.2.1
     (Or.inl (by decide)),
   by decide,
   (descriptor_close_at_most_once [MqEvent.drop] ⟨false, 1⟩ (by decide)).2.1⟩

end Posixmq
